import Mathlib

/-!
Verification of the Claudian plugin's core logic: a shallow embedding of the
MCP server filtering, path containment checks, session recovery heuristics,
settings persistence, inline-edit read-only hook, and environment parsing,
together with theorems settling the specification claims about them.

JavaScript strings are modelled as Lean `String`s (one `Char` per UTF-16 code
unit for the inputs of interest), JS `undefined`/`null` as `Option.none`, and
throwing operations as `Option`/`Except` results.
-/

namespace Claudian

/-! Models of the JavaScript string builtins used by the plugin code. -/

/-- Model of JS `String.prototype.startsWith`. -/
def jsStartsWith (s pre : String) : Bool :=
  pre.data.isPrefixOf s.data

/-- Model of JS `String.prototype.includes`: substring containment. -/
def jsIncludes (s pat : String) : Bool :=
  s.data.tails.any (fun t => pat.data.isPrefixOf t)

/-- Model of JS `String.prototype.endsWith`. -/
def jsEndsWith (s suf : String) : Bool :=
  suf.data.isSuffixOf s.data

/-- Whitespace characters removed by JS `String.prototype.trim`
(restricted to the ASCII whitespace relevant here). -/
def isJsWhitespace (c : Char) : Bool :=
  c == ' ' || c == '\t' || c == '\n' || c == '\r' || c == '\x0b' || c == '\x0c'

/-- Model of JS `String.prototype.trim`. -/
def jsTrim (s : String) : String :=
  String.mk (((s.data.dropWhile isJsWhitespace).reverse.dropWhile isJsWhitespace).reverse)

/-- Model of JS `String.prototype.slice(n)` (drop the first `n` code units). -/
def jsDrop (s : String) (n : Nat) : String :=
  String.mk (s.data.drop n)

/-- Model of JS `String.prototype.slice(0, n)` (take the first `n` code units). -/
def jsTake (s : String) (n : Nat) : String :=
  String.mk (s.data.take n)

/-- Model of JS `String.prototype.length` (number of code units). -/
def jsLength (s : String) : Nat :=
  s.data.length

/-! Model of the Node.js `path` module (POSIX flavour), used by the
`utils` path-containment functions. Each definition follows the
corresponding implementation in Node's `lib/path.js`. -/

/-- The POSIX path separator (`path.sep`). -/
def sep : String := "/"

/-- Model of Node `path.posix.isAbsolute`. -/
def isAbsolute (p : String) : Bool :=
  jsStartsWith p "/"

/-- Split a path into its `/`-separated segments (empty segments included,
as produced by repeated, leading, or trailing separators). -/
def splitSegs (p : String) : List String :=
  p.splitOn "/"

/-- One step of Node's `normalizeString` segment normalization: drop empty
and `.` segments, resolve `..` against the accumulated result. -/
def normStep (allowAboveRoot : Bool) (acc : List String) (seg : String) : List String :=
  if seg = "" || seg = "." then acc
  else if seg = ".." then
    match acc.getLast? with
    | none => if allowAboveRoot then [".."] else []
    | some last => if last = ".." then acc ++ [".."] else acc.dropLast
  else acc ++ [seg]

/-- Model of Node's `normalizeString`: normalize a list of path segments. -/
def normSegs (allowAboveRoot : Bool) (segs : List String) : List String :=
  segs.foldl (normStep allowAboveRoot) []

/-- Model of Node `path.posix.normalize`. -/
def pathNormalize (p : String) : String :=
  if p = "" then "."
  else
    let isAbs := jsStartsWith p "/"
    let trailing := jsEndsWith p "/"
    let s := String.intercalate "/" (normSegs (!isAbs) (splitSegs p))
    let s := if s = "" && !isAbs then "." else s
    let s := if s ≠ "" && trailing then s ++ "/" else s
    if isAbs then "/" ++ s else s

/-- Model of Node `path.posix.join`. -/
def pathJoin (parts : List String) : String :=
  let nonEmpty := parts.filter (fun part => part ≠ "")
  if nonEmpty = [] then "." else pathNormalize (String.intercalate "/" nonEmpty)

/-- Right-to-left accumulation step of Node `path.posix.resolve`: prepend
arguments until an absolute one is found. -/
def resolveGo (acc : String) : List String → String × Bool
  | [] => (acc, false)
  | a :: rest =>
    if a = "" then resolveGo acc rest
    else
      let acc2 := a ++ "/" ++ acc
      if jsStartsWith a "/" then (acc2, true) else resolveGo acc2 rest

/-- Model of Node `path.posix.resolve` with an explicit current working
directory (Node falls back to `process.cwd()`). -/
def pathResolve (cwd : String) (args : List String) : String :=
  let ra := resolveGo "" (args.reverse ++ [cwd])
  let s := String.intercalate "/" (normSegs (!ra.2) (splitSegs ra.1))
  if ra.2 then (if s = "" then "/" else "/" ++ s)
  else (if s = "" then "." else s)

/-- Model of Node `path.posix.dirname`. -/
def dirname (p : String) : String :=
  if p = "" then "."
  else
    let cs := p.data
    let hasRoot := cs.head? = some '/'
    let r := (cs.reverse.dropWhile (fun c => c == '/')).reverse
    let segRev := r.reverse.takeWhile (fun c => c != '/')
    if segRev.length = r.length then (if hasRoot then "/" else ".")
    else
      let e := r.length - segRev.length - 1
      if e = 0 then "/"
      else if hasRoot && e = 1 then "//"
      else String.mk (r.take e)

/-- Model of Node `path.posix.basename` (no extension argument). -/
def basename (p : String) : String :=
  String.mk (((p.data.reverse.dropWhile (fun c => c == '/')).takeWhile (fun c => c != '/')).reverse)

/-! Model of the Node.js `fs` module as seen by `resolveRealPath`:
`realpathSync` may throw (modelled by `Option`), `existsSync` is total. -/

/-- Abstract filesystem: `realpath` returns `none` when `realpathSync` would
throw, `existsSync` mirrors `fs.existsSync`. -/
structure Fs where
  realpath : String → Option String
  existsSync : String → Bool

/-! Embedding of `utils.ts` (`src/unnamed/part_001`). -/

/-- The `while (true)` loop of `resolveRealPath`, walking up the directory
tree.  `absolute` is returned when the walk reaches a fixed point of
`dirname` (the code's `parent === current` exit); the fuel argument only
bounds the walk and is chosen large enough that it never runs out for the
concrete `dirname` model (every step shortens the path or reaches `.`).
The `suffix` accumulator mirrors the code's `suffix.push(...)` /
`suffix.reverse()` usage. -/
def resolveRealPathLoop (fs : Fs) (absolute : String) :
    Nat → String → List String → String
  | 0, _, _ => absolute
  | fuel + 1, current, suffix =>
    match (if fs.existsSync current then fs.realpath current else none) with
    | some resolvedExisting =>
      if suffix.length > 0 then pathJoin (resolvedExisting :: suffix.reverse)
      else resolvedExisting
    | none =>
      let parent := dirname current
      if parent = current then absolute
      else resolveRealPathLoop fs absolute fuel parent (suffix ++ [basename current])

/-- Embedding of `resolveRealPath`: best-effort realpath that falls back to
resolving the nearest existing ancestor and re-appending the remaining
segments. -/
def resolveRealPath (fs : Fs) (cwd : String) (p : String) : String :=
  match fs.realpath p with
  | some r => r
  | none =>
    let absolute := pathResolve cwd [p]
    resolveRealPathLoop fs absolute (absolute.length + 2) absolute []

/-- Ancestor walk as the specification words it: keep the remaining segments
in order (head = topmost missing segment) and re-append them to the realpath
of the nearest existing ancestor. -/
def resolveAncestorSpec (fs : Fs) (absolute : String) :
    Nat → String → List String → String
  | 0, _, _ => absolute
  | fuel + 1, current, remaining =>
    match (if fs.existsSync current then fs.realpath current else none) with
    | some r => if remaining = [] then r else pathJoin (r :: remaining)
    | none =>
      let parent := dirname current
      if parent = current then absolute
      else resolveAncestorSpec fs absolute fuel parent (basename current :: remaining)

/-- Specification-side best-effort symlink resolution: realpath of the full
path if it resolves, otherwise realpath of the nearest existing ancestor with
the remaining segments re-appended. -/
def resolveRealPathSpec (fs : Fs) (cwd : String) (p : String) : String :=
  match fs.realpath p with
  | some r => r
  | none =>
    let absolute := pathResolve cwd [p]
    resolveAncestorSpec fs absolute (absolute.length + 2) absolute []

theorem resolveRealPathLoop_eq_spec (fs : Fs) (absolute : String) :
    ∀ (fuel : Nat) (current : String) (suffix : List String),
      resolveRealPathLoop fs absolute fuel current suffix =
        resolveAncestorSpec fs absolute fuel current suffix.reverse := by
  intro fuel
  induction fuel with
  | zero => intro current suffix; rfl
  | succ n ih =>
    intro current suffix
    rw [resolveRealPathLoop, resolveAncestorSpec]
    cases h : (if fs.existsSync current then fs.realpath current else none) with
    | some r =>
      simp only []
      rcases suffix with _ | ⟨a, rest⟩ <;> simp
    | none =>
      simp only []
      by_cases hp : dirname current = current
      · simp [hp]
      · simp [hp, ih, List.reverse_append]

theorem resolveRealPath_eq_spec (fs : Fs) (cwd p : String) :
    resolveRealPath fs cwd p = resolveRealPathSpec fs cwd p := by
  unfold resolveRealPath resolveRealPathSpec
  cases fs.realpath p with
  | some r => rfl
  | none => simpa using resolveRealPathLoop_eq_spec fs (pathResolve cwd [p]) _ (pathResolve cwd [p]) []

/-- Embedding of `isPathWithinVault`. `home` models `os.homedir()` and `cwd`
models `process.cwd()` (used by Node's `path.resolve`). -/
def isPathWithinVault (fs : Fs) (cwd home : String)
    (candidatePath vaultPath : String) : Bool :=
  let vaultReal := resolveRealPath fs cwd vaultPath
  let expandedPath :=
    if jsStartsWith candidatePath "~/" then pathJoin [home, jsDrop candidatePath 2]
    else candidatePath
  let absCandidate :=
    if isAbsolute expandedPath then expandedPath
    else pathResolve cwd [vaultPath, expandedPath]
  let resolvedCandidate := resolveRealPath fs cwd absCandidate
  resolvedCandidate == vaultReal || jsStartsWith resolvedCandidate (vaultReal ++ sep)

/-- The containment property as the specification words it: expand a leading
tilde, resolve a relative candidate against the vault path, apply best-effort
symlink resolution to both sides, and require equality or prefix containment
past a separator. -/
def IsPathWithinVaultSpec (fs : Fs) (cwd home : String)
    (candidatePath vaultPath : String) : Prop :=
  let vaultReal := resolveRealPathSpec fs cwd vaultPath
  let expandedPath :=
    if jsStartsWith candidatePath "~/" = true then pathJoin [home, jsDrop candidatePath 2]
    else candidatePath
  let absCandidate :=
    if isAbsolute expandedPath = true then expandedPath
    else pathResolve cwd [vaultPath, expandedPath]
  let resolvedCandidate := resolveRealPathSpec fs cwd absCandidate
  resolvedCandidate = vaultReal ∨
    jsStartsWith resolvedCandidate (vaultReal ++ sep) = true

/-- Embedding of `isPathInAllowedExportPaths`.  A missing (`undefined`)
allowed list is modelled as the empty list: the code treats both identically
(`!allowedExportPaths || allowedExportPaths.length === 0`). -/
def isPathInAllowedExportPaths (fs : Fs) (cwd home : String)
    (candidatePath : String) (allowedExportPaths : List String)
    (vaultPath : String) : Bool :=
  if allowedExportPaths.length = 0 then false
  else
    let expandedCandidate :=
      if jsStartsWith candidatePath "~/" then pathJoin [home, jsDrop candidatePath 2]
      else candidatePath
    let absCandidate :=
      if isAbsolute expandedCandidate then expandedCandidate
      else pathResolve cwd [vaultPath, expandedCandidate]
    let resolvedCandidate := resolveRealPath fs cwd absCandidate
    allowedExportPaths.any (fun exportPath =>
      let expandedExport :=
        if jsStartsWith exportPath "~/" then pathJoin [home, jsDrop exportPath 2]
        else exportPath
      let resolvedExport := resolveRealPath fs cwd expandedExport
      resolvedCandidate == resolvedExport ||
        jsStartsWith resolvedCandidate (resolvedExport ++ sep))

/-- Export containment as the specification words it, for a single allowed
export path. -/
def ExportPathMatchSpec (fs : Fs) (cwd home : String)
    (resolvedCandidate exportPath : String) : Prop :=
  let expandedExport :=
    if jsStartsWith exportPath "~/" = true then pathJoin [home, jsDrop exportPath 2]
    else exportPath
  let resolvedExport := resolveRealPathSpec fs cwd expandedExport
  resolvedCandidate = resolvedExport ∨
    jsStartsWith resolvedCandidate (resolvedExport ++ sep) = true

/-- The specification-side resolved candidate shared by both containment
checks. -/
def ResolvedCandidateSpec (fs : Fs) (cwd home : String)
    (candidatePath vaultPath : String) : String :=
  let expandedCandidate :=
    if jsStartsWith candidatePath "~/" = true then pathJoin [home, jsDrop candidatePath 2]
    else candidatePath
  let absCandidate :=
    if isAbsolute expandedCandidate = true then expandedCandidate
    else pathResolve cwd [vaultPath, expandedCandidate]
  resolveRealPathSpec fs cwd absCandidate

/-- C1: `isPathWithinVault` expands a leading `~/`, resolves a relative
candidate against the vault path, applies best-effort symlink resolution
(realpath of the full path when it resolves, otherwise realpath of the
nearest existing ancestor with the remaining segments re-appended), and
returns true iff the resolved candidate equals the resolved vault path or
starts with the resolved vault path followed by the path separator. -/
theorem isPathWithinVault_correct (fs : Fs) (cwd home candidatePath vaultPath : String) :
    isPathWithinVault fs cwd home candidatePath vaultPath = true ↔
      IsPathWithinVaultSpec fs cwd home candidatePath vaultPath := by
  unfold isPathWithinVault IsPathWithinVaultSpec
  simp only [resolveRealPath_eq_spec, Bool.or_eq_true, beq_iff_eq]

/-- C6: `isPathInAllowedExportPaths` returns false for an empty (or missing)
allowed list, and otherwise returns true iff the resolved candidate equals
some resolved allowed export path or starts with it followed by the path
separator, after the same tilde expansion and best-effort symlink resolution
as `isPathWithinVault`. -/
theorem isPathInAllowedExportPaths_correct (fs : Fs)
    (cwd home candidatePath vaultPath : String) (allowedExportPaths : List String) :
    isPathInAllowedExportPaths fs cwd home candidatePath allowedExportPaths vaultPath = true ↔
      ∃ exportPath ∈ allowedExportPaths,
        ExportPathMatchSpec fs cwd home
          (ResolvedCandidateSpec fs cwd home candidatePath vaultPath) exportPath := by
  unfold isPathInAllowedExportPaths ExportPathMatchSpec ResolvedCandidateSpec
  by_cases hemp : allowedExportPaths.length = 0
  · rcases List.length_eq_zero.mp hemp with rfl
    simp
  · simp only [hemp, if_neg, ite_false, List.any_eq_true, resolveRealPath_eq_spec,
      Bool.or_eq_true, beq_iff_eq]

/-! Embedding of `McpService` (`src/unnamed/part_002`).  The shape of an
individual server configuration (`McpServerConfig`, declared in the types
module) is irrelevant to the claims and is kept as a type parameter `γ`.
A JS `Record<string, McpServerConfig>` is modelled by its lookup function
`String → Option γ`; the caller-supplied `Set<string>` of mentioned names is
modelled as a list queried with `contains`. -/

structure ClaudianMcpServer (γ : Type) where
  name : String
  enabled : Bool
  contextSaving : Bool
  config : γ

/-- One iteration of the `getActiveServers` loop: skip disabled servers and
context-saving servers that are not mentioned, otherwise assign
`result[server.name] = server.config`. -/
def getActiveServersStep {γ : Type} (mentionedNames : List String)
    (result : String → Option γ) (server : ClaudianMcpServer γ) : String → Option γ :=
  if !server.enabled then result
  else if server.contextSaving && !(mentionedNames.contains server.name) then result
  else fun n => if n = server.name then some server.config else result n

/-- Embedding of `McpService.getActiveServers`. -/
def getActiveServers {γ : Type} (servers : List (ClaudianMcpServer γ))
    (mentionedNames : List String) : String → Option γ :=
  servers.foldl (getActiveServersStep mentionedNames) (fun _ => none)

/-- The inclusion condition of the specification: enabled, and either not
context-saving or mentioned. -/
def serverIncluded {γ : Type} (mentionedNames : List String)
    (s : ClaudianMcpServer γ) : Bool :=
  s.enabled && (!s.contextSaving || mentionedNames.contains s.name)

theorem getActiveServersStep_eq {γ : Type} (mentionedNames : List String)
    (result : String → Option γ) (server : ClaudianMcpServer γ) :
    getActiveServersStep mentionedNames result server =
      if serverIncluded mentionedNames server then
        (fun n => if n = server.name then some server.config else result n)
      else result := by
  unfold getActiveServersStep serverIncluded
  cases server.enabled <;> cases server.contextSaving <;>
    cases h : mentionedNames.contains server.name <;> simp [h]

theorem getActiveServers_foldl_char {γ : Type} (mentionedNames : List String) :
    ∀ (servers : List (ClaudianMcpServer γ)) (result : String → Option γ) (n : String),
      servers.foldl (getActiveServersStep mentionedNames) result n =
        match ((servers.filter (serverIncluded mentionedNames)).reverse.find?
            (fun s => s.name == n)) with
        | some s => some s.config
        | none => result n := by
  intro servers
  induction servers with
  | nil => intro result n; rfl
  | cons s rest ih =>
    intro result n
    rw [List.foldl_cons, ih, List.filter_cons]
    by_cases hs : serverIncluded mentionedNames s
    · simp only [hs, if_pos, List.reverse_cons, List.find?_append]
      cases hfind : (rest.filter (serverIncluded mentionedNames)).reverse.find?
          (fun t => t.name == n) with
      | some t => simp [hfind, Option.orElse]
      | none =>
        simp only [hfind, Option.none_orElse, List.find?_singleton,
          getActiveServersStep_eq, hs, if_pos]
        by_cases hn : s.name = n
        · simp [hn]
        · simp [hn, Ne.symm hn]
    · simp [hs, getActiveServersStep_eq]

/-- C2: a configured server appears in the result of `getActiveServers` iff it
is enabled and either not in context-saving mode or mentioned, and it is
keyed by its name and mapped to its config (server names assumed distinct, as
they key a record). -/
theorem getActiveServers_correct {γ : Type} (servers : List (ClaudianMcpServer γ))
    (mentionedNames : List String) (n : String) (cfg : γ)
    (hnd : (servers.map (fun s => s.name)).Nodup) :
    getActiveServers servers mentionedNames n = some cfg ↔
      ∃ s ∈ servers, s.name = n ∧ s.config = cfg ∧ s.enabled = true ∧
        (s.contextSaving = false ∨ s.name ∈ mentionedNames) := by
  unfold getActiveServers
  rw [getActiveServers_foldl_char]
  constructor
  · intro h
    cases hfind : (servers.filter (serverIncluded mentionedNames)).reverse.find?
        (fun s => s.name == n) with
    | none => rw [hfind] at h; exact absurd h (by simp)
    | some s =>
      rw [hfind] at h
      have hmem : s ∈ (servers.filter (serverIncluded mentionedNames)).reverse :=
        List.mem_of_find?_eq_some hfind
      have hname : s.name = n := by
        have := List.find?_some hfind
        simpa using this
      have hmem2 : s ∈ servers := by
        have := List.mem_reverse.mp hmem
        exact List.mem_of_mem_filter this
      have hinc : serverIncluded mentionedNames s = true := by
        have := List.mem_reverse.mp hmem
        exact List.of_mem_filter this
      have hcfg : s.config = cfg := by
        simpa using h
      refine ⟨s, hmem2, hname, hcfg, ?_, ?_⟩
      · exact (Bool.and_eq_true _ _ |>.mp hinc).1
      · have h2 := (Bool.and_eq_true _ _ |>.mp hinc).2
        rcases Bool.or_eq_true _ _ |>.mp h2 with h3 | h3
        · left; simpa using h3
        · right; simpa using h3
  · rintro ⟨s, hmem, hname, hcfg, hen, hcs⟩
    have hinc : serverIncluded mentionedNames s = true := by
      unfold serverIncluded
      rw [hen]
      rcases hcs with h3 | h3
      · simp [h3]
      · simp [h3]
    have hmemf : s ∈ (servers.filter (serverIncluded mentionedNames)).reverse := by
      rw [List.mem_reverse]
      exact List.mem_filter.mpr ⟨hmem, hinc⟩
    have hsome : ((servers.filter (serverIncluded mentionedNames)).reverse.find?
        (fun t => t.name == n)).isSome := by
      rw [List.find?_isSome]
      exact ⟨s, hmemf, by simp [hname]⟩
    cases hfind : (servers.filter (serverIncluded mentionedNames)).reverse.find?
        (fun t => t.name == n) with
    | none => rw [hfind] at hsome; simp at hsome
    | some t =>
      have htmem : t ∈ servers := by
        have := List.mem_reverse.mp (List.mem_of_find?_eq_some hfind)
        exact List.mem_of_mem_filter this
      have htname : t.name = n := by
        have := List.find?_some hfind
        simpa using this
      have hts : t = s := by
        exact List.inj_on_of_nodup_map hnd htmem hmem (by rw [htname, hname])
      simp [hfind, hts, hcfg]

/-- A concrete run of `getActiveServers`: with servers `a` (plain, enabled),
`b` (context-saving, enabled) and `c` (disabled) and mention set containing
`b`, the result maps `b` to its config. -/
theorem getActiveServers_correct_witness :
    getActiveServers
      [ClaudianMcpServer.mk "a" true false 1,
       ClaudianMcpServer.mk "b" true true 2,
       ClaudianMcpServer.mk "c" false false 3] ["b"] "b" = some 2 := by
  exact (getActiveServers_correct _ _ _ _ (by decide)).mpr
    ⟨ClaudianMcpServer.mk "b" true true 2, by simp, rfl, rfl, rfl, Or.inr (by simp)⟩

/-! State-passing embedding of the `McpService` methods used by the
frame-effect claim: the service state is its loaded server list, and each
method returns its result together with the (unchanged, since the method
bodies contain no assignment) state. -/

structure McpServiceState (γ : Type) where
  servers : List (ClaudianMcpServer γ)

/-- Embedding of `McpService.getServers`. -/
def getServersM {γ : Type} (st : McpServiceState γ) :
    List (ClaudianMcpServer γ) × McpServiceState γ :=
  (st.servers, st)

/-- Embedding of `McpService.getActiveServers` as a state-passing method. -/
def getActiveServersM {γ : Type} (st : McpServiceState γ) (mentionedNames : List String) :
    (String → Option γ) × McpServiceState γ :=
  (getActiveServers st.servers mentionedNames, st)

/-- C8: `getActiveServers` leaves the loaded server list unchanged (same
elements, order, flags and configs), and repeated calls with the same mention
set return equal results. -/
theorem getActiveServersM_frame {γ : Type} (st : McpServiceState γ)
    (mentionedNames : List String) :
    (getActiveServersM st mentionedNames).2 = st ∧
    (getServersM (getActiveServersM st mentionedNames).2).1 = (getServersM st).1 ∧
    (getActiveServersM (getActiveServersM st mentionedNames).2 mentionedNames).1 =
      (getActiveServersM st mentionedNames).1 :=
  ⟨rfl, rfl, rfl⟩

/-! Embedding of the `InlineEditService` read-only hook
(`src/unnamed/part_000`). -/

/-- The hook's decision: the fields of the object returned by the
`PreToolUse` callback that matter to the claim (`continue` is a reserved
word in Lean, hence `hookContinue`). -/
structure HookOutput where
  hookContinue : Bool
  permissionDecision : Option String
  permissionDecisionReason : Option String
deriving DecidableEq

/-- The `READ_ONLY_TOOLS` constant. -/
def READ_ONLY_TOOLS : List String :=
  ["Read", "Grep", "Glob", "LS", "WebSearch", "WebFetch"]

/-- Embedding of the callback built by `InlineEditService.createReadOnlyHook`,
as a function of the incoming `tool_name`. -/
def createReadOnlyHook (toolName : String) : HookOutput :=
  if READ_ONLY_TOOLS.contains toolName then
    HookOutput.mk true none none
  else
    HookOutput.mk false (some "deny")
      (some ("Inline edit mode: tool \"" ++ toolName ++ "\" is not allowed (read-only)"))

/-- C9: the read-only hook continues iff the tool is one of the six fixed
read-only tools, and denies every other tool. -/
theorem createReadOnlyHook_correct (toolName : String) :
    ((createReadOnlyHook toolName).hookContinue = true ↔
      toolName ∈ (["Read", "Grep", "Glob", "LS", "WebSearch", "WebFetch"] : List String)) ∧
    (toolName ∉ (["Read", "Grep", "Glob", "LS", "WebSearch", "WebFetch"] : List String) →
      (createReadOnlyHook toolName).hookContinue = false ∧
      (createReadOnlyHook toolName).permissionDecision = some "deny") := by
  unfold createReadOnlyHook READ_ONLY_TOOLS
  by_cases h : toolName ∈ (["Read", "Grep", "Glob", "LS", "WebSearch", "WebFetch"] : List String)
  · simp [h]
  · simp [h, List.elem_iff]

/-- The hook at the non-read-only tool `Bash`: it is denied. -/
theorem createReadOnlyHook_correct_witness :
    (createReadOnlyHook "Bash").hookContinue = false ∧
    (createReadOnlyHook "Bash").permissionDecision = some "deny" :=
  (createReadOnlyHook_correct "Bash").2 (by decide)

/-! Embedding of the session-recovery error heuristics
(`src/unnamed/part_001`). -/

/-- The `SESSION_ERROR_PATTERNS` constant. -/
def SESSION_ERROR_PATTERNS : List String :=
  ["session expired", "session not found", "invalid session", "session invalid",
   "process exited with code"]

/-- The `SESSION_ERROR_COMPOUND_PATTERNS` constant (each entry is the
`includes` word list). -/
def SESSION_ERROR_COMPOUND_PATTERNS : List (List String) :=
  [["session", "expired"], ["resume", "failed"], ["resume", "error"]]

/-- The `unknown` input of `isSessionExpiredError`: either an `Error`
instance carrying a message, or any other value. -/
inductive SessionErrorInput where
  | jsError (message : String)
  | nonError
deriving DecidableEq

/-- The message the function matches against: the lower-cased `Error`
message, or the empty string for non-`Error` inputs. -/
def errorMessageLower : SessionErrorInput → String
  | SessionErrorInput.jsError message => message.toLower
  | SessionErrorInput.nonError => ""

/-- Embedding of `isSessionExpiredError`: the two pattern loops with early
return, as `List.any` / `List.all`. -/
def isSessionExpiredError (error : SessionErrorInput) : Bool :=
  let msg := errorMessageLower error
  SESSION_ERROR_PATTERNS.any (fun pattern => jsIncludes msg pattern) ||
    SESSION_ERROR_COMPOUND_PATTERNS.any (fun includes =>
      includes.all (fun part => jsIncludes msg part))

/-- C3: `isSessionExpiredError` is true iff the lower-cased message (empty
for non-`Error` inputs) contains one of the five fixed substrings, or all
words of one of the three fixed word pairs. -/
theorem isSessionExpiredError_correct (error : SessionErrorInput) :
    isSessionExpiredError error = true ↔
      (∃ pattern ∈ (["session expired", "session not found", "invalid session",
          "session invalid", "process exited with code"] : List String),
        jsIncludes (errorMessageLower error) pattern = true) ∨
      (∃ includes ∈ ([["session", "expired"], ["resume", "failed"],
          ["resume", "error"]] : List (List String)),
        ∀ part ∈ includes, jsIncludes (errorMessageLower error) part = true) := by
  unfold isSessionExpiredError SESSION_ERROR_PATTERNS SESSION_ERROR_COMPOUND_PATTERNS
  simp [List.any_eq_true, List.all_eq_true]

/-! Embedding of the two coexisting versions of
`getCurrentModelFromEnvironment` in `src/unnamed/part_001` (lines 101-115 and
lines 526-540).  An environment-variable map is modelled as a total function
`String → String` where the empty string stands for an absent (or falsy)
variable, matching the JS truthiness tests the code performs. -/

/-- The lines 101-115 version: fallback order opus, sonnet, haiku. -/
def getCurrentModelFromEnvironmentOld (envVars : String → String) : Option String :=
  if envVars "ANTHROPIC_MODEL" ≠ "" then some (envVars "ANTHROPIC_MODEL")
  else if envVars "ANTHROPIC_DEFAULT_OPUS_MODEL" ≠ "" then
    some (envVars "ANTHROPIC_DEFAULT_OPUS_MODEL")
  else if envVars "ANTHROPIC_DEFAULT_SONNET_MODEL" ≠ "" then
    some (envVars "ANTHROPIC_DEFAULT_SONNET_MODEL")
  else if envVars "ANTHROPIC_DEFAULT_HAIKU_MODEL" ≠ "" then
    some (envVars "ANTHROPIC_DEFAULT_HAIKU_MODEL")
  else none

/-- The lines 526-540 version: fallback order haiku, sonnet, opus. -/
def getCurrentModelFromEnvironmentNew (envVars : String → String) : Option String :=
  if envVars "ANTHROPIC_MODEL" ≠ "" then some (envVars "ANTHROPIC_MODEL")
  else if envVars "ANTHROPIC_DEFAULT_HAIKU_MODEL" ≠ "" then
    some (envVars "ANTHROPIC_DEFAULT_HAIKU_MODEL")
  else if envVars "ANTHROPIC_DEFAULT_SONNET_MODEL" ≠ "" then
    some (envVars "ANTHROPIC_DEFAULT_SONNET_MODEL")
  else if envVars "ANTHROPIC_DEFAULT_OPUS_MODEL" ≠ "" then
    some (envVars "ANTHROPIC_DEFAULT_OPUS_MODEL")
  else none

/-- The first key of `keys` with a truthy value, mapped through the
environment. -/
def firstTruthyEnv (envVars : String → String) (keys : List String) : Option String :=
  (keys.find? (fun k => decide (envVars k ≠ ""))).map envVars

/-- An environment with both an opus and a haiku default model and nothing
else: the two versions disagree on it. -/
def envOpusAndHaiku : String → String := fun k =>
  if k = "ANTHROPIC_DEFAULT_OPUS_MODEL" then "opus-model"
  else if k = "ANTHROPIC_DEFAULT_HAIKU_MODEL" then "haiku-model"
  else ""

/-- C10 counterexample: the two embedded versions of
`getCurrentModelFromEnvironment` are not extensionally equal — with only the
opus and haiku defaults set, the old version returns the opus model and the
new one the haiku model. -/
theorem getCurrentModelFromEnvironment_versions_differ :
    getCurrentModelFromEnvironmentOld envOpusAndHaiku = some "opus-model" ∧
    getCurrentModelFromEnvironmentNew envOpusAndHaiku = some "haiku-model" ∧
    getCurrentModelFromEnvironmentOld envOpusAndHaiku ≠
      getCurrentModelFromEnvironmentNew envOpusAndHaiku := by
  refine ⟨?_, ?_, ?_⟩ <;> decide

/-- C10 amended: both versions return `ANTHROPIC_MODEL` first, but then fall
back in opposite orders — the lines 101-115 version through opus, sonnet,
haiku and the lines 526-540 version through haiku, sonnet, opus — so they
agree whenever `ANTHROPIC_MODEL` is set but differ in general. -/
theorem getCurrentModelFromEnvironment_versions_char (envVars : String → String) :
    getCurrentModelFromEnvironmentOld envVars =
      firstTruthyEnv envVars
        ["ANTHROPIC_MODEL", "ANTHROPIC_DEFAULT_OPUS_MODEL",
         "ANTHROPIC_DEFAULT_SONNET_MODEL", "ANTHROPIC_DEFAULT_HAIKU_MODEL"] ∧
    getCurrentModelFromEnvironmentNew envVars =
      firstTruthyEnv envVars
        ["ANTHROPIC_MODEL", "ANTHROPIC_DEFAULT_HAIKU_MODEL",
         "ANTHROPIC_DEFAULT_SONNET_MODEL", "ANTHROPIC_DEFAULT_OPUS_MODEL"] := by
  unfold getCurrentModelFromEnvironmentOld getCurrentModelFromEnvironmentNew firstTruthyEnv
  constructor <;>
  · by_cases h1 : envVars "ANTHROPIC_MODEL" = "" <;>
    by_cases h2 : envVars "ANTHROPIC_DEFAULT_OPUS_MODEL" = "" <;>
    by_cases h3 : envVars "ANTHROPIC_DEFAULT_SONNET_MODEL" = "" <;>
    by_cases h4 : envVars "ANTHROPIC_DEFAULT_HAIKU_MODEL" = "" <;>
    simp [h1, h2, h3, h4, List.find?]

/-! Embedding of `SettingsStorage` (`src/src/storage/SettingsStorage.ts`).
A settings object is modelled by its property lookup function
`String → Option α`, with the value type `α` and the `DEFAULT_SETTINGS`
object (declared in the types module, which is not part of the sources) kept
as parameters: the claims hold for every choice of them.  The
`VaultFileAdapter` operations and `JSON.parse` may fail, modelled with
`Except`; `async`/`await` sequencing is plain sequencing. -/

/-- A settings object: property name to value. -/
def SettingsObj (α : Type) : Type := String → Option α

/-- The host file adapter: each operation may throw. -/
structure VaultFileAdapter where
  fileExists : String → Except String Bool
  readFile : String → Except String String
  writeFile : String → String → Except String Unit

/-- The `SETTINGS_PATH` constant. -/
def SETTINGS_PATH : String := ".claude/settings.json"

/-- The state fields destructured away by `SettingsStorage.getDefaults`. -/
def stateFields : List String :=
  ["slashCommands", "lastEnvHash", "lastClaudeModel", "lastCustomModel"]

/-- Embedding of `SettingsStorage.getDefaults`: the default settings with the
four state fields removed. -/
def getDefaults {α : Type} (DEFAULT_SETTINGS : SettingsObj α) : SettingsObj α :=
  fun k => if stateFields.contains k then none else DEFAULT_SETTINGS k

/-- JS object spread `\x7b ...a, ...b \x7d` on the lookup model: keys of `b`
override keys of `a`. -/
def spreadMerge {α : Type} (a b : SettingsObj α) : SettingsObj α :=
  fun k => match b k with
  | some v => some v
  | none => a k

/-- The body of the `try` block of `SettingsStorage.load`, with `parse`
standing for `JSON.parse` composed with the cast to `Partial<StoredSettings>`. -/
def loadAttempt {α : Type} (parse : String → Except String (SettingsObj α))
    (adapter : VaultFileAdapter) (DEFAULT_SETTINGS : SettingsObj α) :
    Except String (SettingsObj α) :=
  match adapter.fileExists SETTINGS_PATH with
  | Except.error e => Except.error e
  | Except.ok ex =>
    if !ex then Except.ok (getDefaults DEFAULT_SETTINGS)
    else
      match adapter.readFile SETTINGS_PATH with
      | Except.error e => Except.error e
      | Except.ok content =>
        match parse content with
        | Except.error e => Except.error e
        | Except.ok stored => Except.ok (spreadMerge (getDefaults DEFAULT_SETTINGS) stored)

/-- Embedding of `SettingsStorage.load`: run the try block, and on any error
log and return the defaults. -/
def load {α : Type} (parse : String → Except String (SettingsObj α))
    (adapter : VaultFileAdapter) (DEFAULT_SETTINGS : SettingsObj α) : SettingsObj α :=
  match loadAttempt parse adapter DEFAULT_SETTINGS with
  | Except.ok settings => settings
  | Except.error _ => getDefaults DEFAULT_SETTINGS

/-- Embedding of `SettingsStorage.save`: stringify, write, and on error log
and re-throw the same error (`stringify` stands for `JSON.stringify`). -/
def save {α : Type} (stringify : SettingsObj α → String)
    (adapter : VaultFileAdapter) (settings : SettingsObj α) : Except String Unit :=
  match adapter.writeFile SETTINGS_PATH (stringify settings) with
  | Except.ok u => Except.ok u
  | Except.error e => Except.error e

/-- C4: when the settings file exists, reads, and parses, `load` returns the
defaults minus the four state fields overridden field-by-field by the stored
object; when the file does not exist, it returns exactly those defaults. -/
theorem load_correct {α : Type} (parse : String → Except String (SettingsObj α))
    (adapter : VaultFileAdapter) (DEFAULT_SETTINGS : SettingsObj α) :
    (∀ content stored,
      adapter.fileExists SETTINGS_PATH = Except.ok true →
      adapter.readFile SETTINGS_PATH = Except.ok content →
      parse content = Except.ok stored →
      ∀ k, load parse adapter DEFAULT_SETTINGS k =
        match stored k with
        | some v => some v
        | none =>
          if k ∈ (["slashCommands", "lastEnvHash", "lastClaudeModel",
              "lastCustomModel"] : List String) then none
          else DEFAULT_SETTINGS k) ∧
    (adapter.fileExists SETTINGS_PATH = Except.ok false →
      ∀ k, load parse adapter DEFAULT_SETTINGS k =
        if k ∈ (["slashCommands", "lastEnvHash", "lastClaudeModel",
            "lastCustomModel"] : List String) then none
        else DEFAULT_SETTINGS k) := by
  constructor
  · intro content stored hex hread hparse k
    unfold load loadAttempt
    simp only [hex, hread, hparse, Bool.not_true, Bool.false_eq_true, if_false]
    unfold spreadMerge getDefaults
    cases stored k <;> simp [stateFields, List.elem_iff]
  · intro hex k
    unfold load loadAttempt
    rw [hex]
    simp only [Bool.not_false, if_true]
    unfold getDefaults
    simp [stateFields, List.elem_iff]

/-- A concrete run of `load`: with a file containing only `model`, the
loaded settings take `model` from the store, `vault` from the defaults, and
drop the state field `lastEnvHash`. -/
theorem load_correct_witness :
    (load (fun _ => Except.ok (fun k => if k = "model" then some "opus" else none))
      (VaultFileAdapter.mk (fun _ => Except.ok true) (fun _ => Except.ok "stored")
        (fun _ _ => Except.ok ()))
      (fun k => if k = "model" then some "default" else
        if k = "vault" then some "v" else
        if k = "lastEnvHash" then some "h" else none) "model" = some "opus") ∧
    (load (fun _ => Except.ok (fun k => if k = "model" then some "opus" else none))
      (VaultFileAdapter.mk (fun _ => Except.ok true) (fun _ => Except.ok "stored")
        (fun _ _ => Except.ok ()))
      (fun k => if k = "model" then some "default" else
        if k = "vault" then some "v" else
        if k = "lastEnvHash" then some "h" else none) "lastEnvHash" = none) ∧
    (load (fun _ => Except.ok (fun k => if k = "model" then some "opus" else none))
      (VaultFileAdapter.mk (fun _ => Except.ok false) (fun _ => Except.ok "stored")
        (fun _ _ => Except.ok ()))
      (fun k => if k = "vault" then some "v" else none) "vault" = some "v") := by
  refine ⟨?_, ?_, ?_⟩
  · rw [(load_correct _ _ _).1 "stored" _ rfl rfl rfl "model"]; rfl
  · rw [(load_correct _ _ _).1 "stored" _ rfl rfl rfl "lastEnvHash"]; rfl
  · rw [(load_correct _ _ _).2 rfl "vault"]; rfl

/-- An adapter whose write always fails. -/
def failingWriteAdapter : VaultFileAdapter :=
  VaultFileAdapter.mk (fun _ => Except.ok true) (fun _ => Except.ok "")
    (fun _ _ => Except.error "disk full")

/-- C5 counterexample: `save` does not recover from a write failure — it
re-throws, so the adapter error propagates to the caller instead of a
default value being returned. -/
theorem save_propagates_error :
    save (fun _ => "serialized") failingWriteAdapter
        ((fun _ => none) : SettingsObj String) = Except.error "disk full" ∧
    save (fun _ => "serialized") failingWriteAdapter
        ((fun _ => none) : SettingsObj String) ≠ Except.ok () := by
  exact ⟨rfl, by simp [save, failingWriteAdapter]⟩

/-- C5 amended: `load` recovers from every adapter or parse failure by
returning the defaults, while `save` catches and logs but re-throws, so its
write errors propagate unchanged to the caller. -/
theorem load_recovers_save_rethrows {α : Type}
    (parse : String → Except String (SettingsObj α)) (adapter : VaultFileAdapter)
    (DEFAULT_SETTINGS : SettingsObj α) :
    (∀ e, loadAttempt parse adapter DEFAULT_SETTINGS = Except.error e →
      ∀ k, load parse adapter DEFAULT_SETTINGS k = getDefaults DEFAULT_SETTINGS k) ∧
    (∀ (stringify : SettingsObj α → String) (settings : SettingsObj α),
      save stringify adapter settings =
        adapter.writeFile SETTINGS_PATH (stringify settings)) := by
  constructor
  · intro e herr k
    unfold load
    rw [herr]
  · intro stringify settings
    unfold save
    cases adapter.writeFile SETTINGS_PATH (stringify settings) <;> rfl

/-- A concrete failing load: a read error makes `load` return the defaults. -/
theorem load_recovers_save_rethrows_witness :
    load (fun _ => Except.error "bad json")
      (VaultFileAdapter.mk (fun _ => Except.ok true) (fun _ => Except.error "io error")
        (fun _ _ => Except.ok ()))
      ((fun k => if k = "vault" then some "v" else none) : SettingsObj String) "vault" =
      some "v" := by
  have h := (load_recovers_save_rethrows (fun _ => Except.error "bad json")
    (VaultFileAdapter.mk (fun _ => Except.ok true) (fun _ => Except.error "io error")
      (fun _ _ => Except.ok ()))
    ((fun k => if k = "vault" then some "v" else none) : SettingsObj String)).1
    "io error" rfl "vault"
  rw [h]; rfl

/-! Embedding of the history-reconstruction functions
(`src/unnamed/part_001`).  `ChatMessage` and `ToolCallInfo` are modelled
with the fields the functions read; optional fields are `Option`s, and the
JS truthiness tests on strings (`undefined` and `""` both falsy) are
modelled by comparing the `Option.getD ""` value with `""` exactly where
the code only branches on truthiness. -/

structure ToolCallInfo where
  name : String
  status : Option String
  result : Option String
deriving DecidableEq

structure ChatMessage where
  role : String
  content : Option String
  contextFiles : Option (List String)
  toolCalls : Option (List ToolCallInfo)
deriving DecidableEq

/-- Embedding of `formatContextFilesLine`. -/
def formatContextFilesLine (files : List String) : String :=
  "Context files: [" ++ String.intercalate ", " files ++ "]"

/-- Embedding of `formatContextLine`: `none` models the `null` return. -/
def formatContextLine (message : ChatMessage) : Option String :=
  match message.contextFiles with
  | none => none
  | some files => if files.length = 0 then none else some (formatContextFilesLine files)

/-- Embedding of `truncateToolResult` (`maxLength` is 800 at every use). -/
def truncateToolResult (result : String) (maxLength : Nat) : String :=
  if jsLength result > maxLength then jsTake result maxLength ++ "... (truncated)"
  else result

/-- Embedding of `formatToolCallForContext` (`maxResultLength` is 800 at
every use, the declared default). -/
def formatToolCallForContext (toolCall : ToolCallInfo) (maxResultLength : Nat) : String :=
  let status := toolCall.status.getD "completed"
  let base := "[Tool " ++ toolCall.name ++ " status=" ++ status ++ "]"
  match toolCall.result with
  | some r =>
    if jsTrim r ≠ "" then base ++ " result: " ++ truncateToolResult r maxResultLength
    else base
  | none => base

/-- The filter of the `buildContextFromHistory` loop: which messages
produce a block (the loop's two `continue` tests). -/
def keepMessage (message : ChatMessage) : Bool :=
  if message.role ≠ "user" ∧ message.role ≠ "assistant" then false
  else if message.role = "assistant" then
    (match message.content with
     | some c => jsTrim c ≠ ""
     | none => false) ||
    ((message.toolCalls.getD []).any (fun tc =>
      match tc.result with
      | some r => jsTrim r ≠ ""
      | none => false))
  else true

/-- The block the `buildContextFromHistory` loop pushes for a kept message. -/
def messageBlock (message : ChatMessage) : String :=
  let role := if message.role = "user" then "User" else "Assistant"
  let content := jsTrim (message.content.getD "")
  let contextLine := (formatContextLine message).getD ""
  let userPayload :=
    if contextLine ≠ "" then
      (if content ≠ "" then contextLine ++ "\n\n" ++ content else contextLine)
    else content
  let firstLine := if userPayload ≠ "" then role ++ ": " ++ userPayload else role ++ ":"
  let toolLines :=
    if message.role = "assistant" then
      ((message.toolCalls.getD []).map
        (fun tc => formatToolCallForContext tc 800)).filter (fun l => l ≠ "")
    else []
  String.intercalate "\n" (firstLine :: toolLines)

/-- Embedding of `buildContextFromHistory`: one block per kept message, in
order, joined by blank lines. -/
def buildContextFromHistory (messages : List ChatMessage) : String :=
  String.intercalate "\n\n" ((messages.filter keepMessage).map messageBlock)

/-- Which messages the specification keeps: role `user`, or role `assistant`
with non-empty trimmed content or some tool call with a non-empty trimmed
result; every other role is omitted. -/
def SpecKeep (m : ChatMessage) : Prop :=
  m.role = "user" ∨
    (m.role = "assistant" ∧
      (jsTrim (m.content.getD "") ≠ "" ∨
        ∃ tc ∈ m.toolCalls.getD [], jsTrim (tc.result.getD "") ≠ ""))

instance (m : ChatMessage) : Decidable (SpecKeep m) := by
  unfold SpecKeep; infer_instance

/-- The block of a kept message as the (amended) specification words it: a
`User:`/`Assistant:` prefixed payload — preceded by the context-files line
when `contextFiles` is non-empty — and, for assistant messages, one
formatted line per tool call. -/
def specBlock (m : ChatMessage) : String :=
  let rolePrefixed := if m.role = "user" then "User" else "Assistant"
  let trimmedContent := jsTrim (m.content.getD "")
  let ctx : Option String :=
    match m.contextFiles with
    | some files => if files ≠ [] then some (formatContextFilesLine files) else none
    | none => none
  let payload :=
    match ctx with
    | some cl => if trimmedContent ≠ "" then cl ++ "\n\n" ++ trimmedContent else cl
    | none => trimmedContent
  let headLine :=
    if payload ≠ "" then rolePrefixed ++ ": " ++ payload else rolePrefixed ++ ":"
  let toolLines :=
    if m.role = "assistant" then
      (m.toolCalls.getD []).map (fun tc => formatToolCallForContext tc 800)
    else []
  String.intercalate "\n" (headLine :: toolLines)

/-- The rebuilt context as the (amended) specification words it. -/
def specRebuild (messages : List ChatMessage) : String :=
  String.intercalate "\n\n"
    ((messages.filter (fun m => decide (SpecKeep m))).map specBlock)

theorem append_ne_empty_left (s t : String) (h : s ≠ "") : s ++ t ≠ "" := by
  intro he
  apply h
  have hd := congrArg String.data he
  rw [String.data_append] at hd
  have hnil : s.data = [] := (List.append_eq_nil.mp hd).1
  exact String.ext (by rw [hnil])

theorem formatToolCallForContext_ne_empty (tc : ToolCallInfo) (n : Nat) :
    formatToolCallForContext tc n ≠ "" := by
  have hbase : ("[Tool " ++ tc.name ++ " status=" ++ tc.status.getD "completed" ++ "]") ≠ "" := by
    apply append_ne_empty_left
    apply append_ne_empty_left
    apply append_ne_empty_left
    apply append_ne_empty_left
    decide
  simp only [formatToolCallForContext]
  cases tc.result with
  | some r =>
    dsimp only
    by_cases hr : jsTrim r ≠ ""
    · rw [if_pos hr]
      apply append_ne_empty_left
      apply append_ne_empty_left
      exact hbase
    · rw [if_neg hr]
      exact hbase
  | none => exact hbase

theorem jsTrim_empty : jsTrim "" = "" := rfl

theorem option_truthy_trim (o : Option String) :
    (match o with
     | some c => decide (jsTrim c ≠ "")
     | none => false) = decide (jsTrim (o.getD "") ≠ "") := by
  cases o <;> simp [jsTrim_empty]

theorem keepMessage_eq_specKeep (m : ChatMessage) :
    keepMessage m = decide (SpecKeep m) := by
  unfold keepMessage SpecKeep
  by_cases hu : m.role = "user"
  · simp [hu]
  · by_cases ha : m.role = "assistant"
    · simp only [hu, ha, ne_eq, not_true_eq_false, and_false, if_false,
        not_false_eq_true, false_and, if_true, false_or, ite_true, ite_false,
        Bool.false_eq_true]
      rw [show
          (fun tc : ToolCallInfo =>
            (match tc.result with
             | some r => decide (jsTrim r ≠ "")
             | none => false)) =
          (fun tc : ToolCallInfo => decide (jsTrim (tc.result.getD "") ≠ "")) from
        funext (fun tc => option_truthy_trim tc.result)]
      rw [option_truthy_trim m.content, Bool.eq_iff_iff]
      simp [List.any_eq_true]
    · simp [hu, ha]

theorem messageBlock_eq_specBlock (m : ChatMessage) :
    messageBlock m = specBlock m := by
  have hfilter : ∀ tcs : List ToolCallInfo,
      List.filter (fun l => !decide (l = ""))
          (List.map (fun tc => formatToolCallForContext tc 800) tcs) =
        List.map (fun tc => formatToolCallForContext tc 800) tcs := by
    intro tcs
    rw [List.filter_eq_self]
    intro a ha
    rcases List.mem_map.mp ha with ⟨tc, _, rfl⟩
    simp [formatToolCallForContext_ne_empty]
  unfold messageBlock specBlock formatContextLine
  cases hcf : m.contextFiles with
  | none => simp [hfilter]
  | some files =>
    by_cases hemp : files.length = 0
    · rcases List.length_eq_zero.mp hemp with rfl
      simp [hfilter]
    · have hne : files ≠ [] := by
        intro h; rw [h] at hemp; exact hemp rfl
      have hlinene : formatContextFilesLine files ≠ "" := by
        unfold formatContextFilesLine
        apply append_ne_empty_left
        apply append_ne_empty_left
        decide
      simp [hemp, hne, hlinene, hfilter]

/-- C7 counterexample: the claim as stated attaches the context-files line
only to user blocks, but `buildContextFromHistory` also prepends it to
assistant blocks — on an assistant message with content `hi` and context
file `a.md` the produced block includes the context line. -/
theorem buildContextFromHistory_assistant_context :
    buildContextFromHistory
        [ChatMessage.mk "assistant" (some "hi") (some ["a.md"]) none] =
      "Assistant: Context files: [a.md]\n\nhi" ∧
    buildContextFromHistory
        [ChatMessage.mk "assistant" (some "hi") (some ["a.md"]) none] ≠
      "Assistant: hi" := by
  constructor <;> decide

/-- C7 amended: `buildContextFromHistory` produces one block per kept
message in order, joined by blank lines — a message is kept iff its role is
`user`, or `assistant` with non-empty trimmed content or some tool call with
a non-empty trimmed result; blocks are prefixed `User:`/`Assistant:`, any
kept message's block (user or assistant) is preceded by its context-files
line when `contextFiles` is non-empty, and assistant blocks append one
formatted line per tool call. -/
theorem buildContextFromHistory_correct (messages : List ChatMessage) :
    buildContextFromHistory messages = specRebuild messages := by
  unfold buildContextFromHistory specRebuild
  have hf : messages.filter keepMessage =
      messages.filter (fun m => decide (SpecKeep m)) := by
    apply List.filter_congr
    intro m _
    exact keepMessage_eq_specKeep m
  rw [hf]
  congr 1
  apply List.map_congr_left
  intro m _
  exact messageBlock_eq_specBlock m

end Claudian
